import Mathlib

/-!
Shallow embedding of the dom-cue reactive signals library (signals.py).

The library is a single-threaded reactive runtime: `Signal` is a mutable
cell that is simultaneously an insertion-ordered identity set of its
dependents, `Computed` is a lazy cached derived value (or an eager
non-exposing effect), and module-level globals control batching and
dependency tracking.

Modelling choices:
 - Python object identity is modelled by an explicit `oid : Nat` on stored
   values (`Obj`); `a is b` on stored values becomes `a.oid = b.oid`.
 - The heap of Signal/Computed objects is a list of `Node`s indexed by
   `Nat` ids; `x is y` on nodes becomes id equality.
 - Producer functions are a small expression language `Expr` (reads,
   peeks, arithmetic, conditionals, untracked blocks, raising); producers
   in the claims' scenarios only read, never write, matching the library's
   intended use.
 - The mutually recursive evaluation (`Computed._run` calls the producer,
   which reads signals/computeds, which may run further computeds) is a
   single fuel-indexed structural function `step`, so every run is
   computable in the kernel.  `Outc.out` marks fuel exhaustion and never
   occurs in the concrete scenarios below.
 - Each producer invocation appends the node id to a global `log`
   (modelling a run counter on the producer); each invocation of a stored
   effect cleanup appends to `clog`.
-/

namespace DomCue

/-- Python values held in caches: `none` is Python `None`, otherwise an int. -/
abbrev PyVal := Option Int

/-- A Python object stored in a signal: payload plus object identity. -/
structure Obj where
  oid : Nat
  val : Int
deriving DecidableEq, Repr

/-- Producer expressions: the body of a computed / effect callback. -/
inductive Expr where
  | lit (n : Int)
  | readV (i : Nat)
  | peekV (i : Nat)
  | addE (a b : Expr)
  | mulE (a b : Expr)
  | iteE (c t e : Expr)
  | untrackedE (e : Expr)
  | raiseE
deriving DecidableEq, Repr

/-- The code attached to a computed node: an ordinary producer, or the
`effect` wrapper around a callback body (`retCleanup` says whether the
callback returns a callable cleanup). -/
inductive NodeProg where
  | comp (e : Expr)
  | eff (body : Expr) (retCleanup : Bool)
deriving DecidableEq, Repr

/-- One Signal / Computed object.  `prog = none` is a plain `Signal`;
`prog = some _` is a `Computed` (with `subscribe = false` for effects).
`elems` is the embedded ordered identity `Set` (dependents of a signal,
upstream scratch of a computed).  `compute` is `_compute`, `cache` is
`_computed`, `lastCleanup` models the effect closure's `value` holding a
callable. -/
structure Node where
  prog : Option NodeProg := none
  subscribe : Bool := true
  obj : Obj := ⟨0, 0⟩
  compute : Bool := false
  cache : PyVal := none
  lastCleanup : Bool := false
  elems : List Nat := []
deriving DecidableEq, Repr

/-- The whole interpreter state: the heap plus the module-level globals
`batched`, `synchronous`, `tracked`, `computing`, and two instrumentation
logs (producer invocations, cleanup invocations). -/
structure St where
  nodes : List Node := []
  batched : List Nat := []
  synchronous : Bool := true
  tracked : Bool := true
  computing : Option Nat := none
  log : List Nat := []
  clog : List Nat := []
deriving DecidableEq, Repr

/-- Heap lookup (out of range yields a default node; scenarios only use
valid ids). -/
def getN (st : St) (i : Nat) : Node := (st.nodes[i]?).getD {}

/-- Heap update. -/
def setN (st : St) (i : Nat) (n : Node) : St := { st with nodes := st.nodes.set i n }

/-- Heap update through a function. -/
def modN (st : St) (i : Nat) (g : Node → Node) : St := setN st i (g (getN st i))

/-- Set.add: append if no element is identical (ids are identities). -/
def setAdd (l : List Nat) (x : Nat) : List Nat := if x ∈ l then l else l ++ [x]

/-- The loop counter of Set.discard: starts at -1, incremented once per
visited element, stopping right after the first identity match. -/
def finalI (x : Nat) : List Nat → Int → Int
  | [], i => i
  | y :: t, i => if y = x then i + 1 else finalI x t (i + 1)

/-- Set.discard, exactly as written in the source: run the scan loop, then
`if i != -1: self.pop(i)`.  (When `x` is absent and the list non-empty the
loop leaves `i` at the last index, so the last element is popped.) -/
def setDiscard (l : List Nat) (x : Nat) : List Nat :=
  let i := finalI x l (-1)
  if i = -1 then l else l.eraseIdx i.toNat

/-- Add `x` to node `i`'s embedded set. -/
def addElem (st : St) (i x : Nat) : St := modN st i (fun n => { n with elems := setAdd n.elems x })

/-- Module-level `cleared(self)` applied to node `i`'s embedded set:
snapshot the contents and clear them. -/
def cleared (st : St) (i : Nat) : List Nat × St :=
  ((getN st i).elems, modN st i (fun n => { n with elems := [] }))

/-- Module-level `cleared(batched)`. -/
def clearedB (st : St) : List Nat × St := (st.batched, { st with batched := [] })

/-- Python truthiness of a cached value (`None` is falsy, ints by ≠ 0). -/
def truthy : PyVal → Bool
  | none => false
  | some n => n != 0

/-- Outcome of a call: normal result, a propagating Python exception, or
fuel exhaustion (a modelling artifact, never hit in the scenarios). -/
inductive Outc (α : Type) where
  | ok (a : α)
  | exc
  | out
deriving DecidableEq, Repr

/-- The flattening loop in `Computed.value`: for each upstream signal of
the just-read computed, link it to the outer evaluating node `c`
(`computing.add(signal); signal.add(computing)`). -/
def flattenLoop (c : Nat) (sigs : List Nat) (st : St) : St :=
  match sigs with
  | [] => st
  | s :: rest => flattenLoop c rest (addElem (addElem st c s) s c)

/-- The mutually recursive evaluation entry points, combined into one
fuel-indexed function. -/
inductive Call where
  | expr (e : Expr)
  | vget (i : Nat)
  | pget (i : Nat)
  | runN (i : Nat)
  | progC (p : NodeProg) (i : Nat)
deriving DecidableEq, Repr

/-- The interpreter.  `expr` evaluates a producer expression; `vget` is the
`value` property getter (of a signal or computed); `pget` is `peek`;
`runN` is `Computed._run`; `progC` invokes the node's attached code (the
producer itself, or the `effect` wrapper). -/
def step : Nat → Call → St → Outc PyVal × St
  | 0, _, st => (.out, st)
  | f + 1, c, st =>
    match c with
    | .expr e =>
      match e with
      | .lit n => (.ok (some n), st)
      | .readV i => step f (.vget i) st
      | .peekV i => step f (.pget i) st
      | .addE a b =>
        match step f (.expr a) st with
        | (.ok va, st1) =>
          match step f (.expr b) st1 with
          | (.ok vb, st2) =>
            match va, vb with
            | some x, some y => (.ok (some (x + y)), st2)
            | _, _ => (.exc, st2)
          | r => r
        | r => r
      | .mulE a b =>
        match step f (.expr a) st with
        | (.ok va, st1) =>
          match step f (.expr b) st1 with
          | (.ok vb, st2) =>
            match va, vb with
            | some x, some y => (.ok (some (x * y)), st2)
            | _, _ => (.exc, st2)
          | r => r
        | r => r
      | .iteE cc t e2 =>
        match step f (.expr cc) st with
        | (.ok v, st1) => if truthy v then step f (.expr t) st1 else step f (.expr e2) st1
        | r => r
      | .untrackedE e1 =>
        let tracking := st.tracked
        let r1 := step f (.expr e1) { st with tracked := false }
        (r1.1, { r1.2 with tracked := tracking })
      | .raiseE => (.exc, st)
    | .vget i =>
      let n := getN st i
      match n.prog with
      | none =>
        let st1 :=
          if st.tracked then
            match st.computing with
            | some c0 => addElem (addElem st c0 i) i c0
            | none => st
          else st
        (.ok (some n.obj.val), st1)
      | some _ =>
        match step f (.runN i) st with
        | (.ok _, st1) =>
          let n1 := getN st1 i
          let st2 :=
            if n1.subscribe && st1.tracked then
              match st1.computing with
              | some c0 =>
                let pr := cleared st1 i
                flattenLoop c0 pr.1 pr.2
              | none => st1
            else st1
          (.ok (getN st2 i).cache, st2)
        | r => r
    | .pget i =>
      let n := getN st i
      match n.prog with
      | none => (.ok (some n.obj.val), st)
      | some _ =>
        match step f (.runN i) st with
        | (.ok _, st1) => (.ok (getN st1 i).cache, st1)
        | r => r
    | .runN i =>
      let n := getN st i
      match n.prog with
      | none => (.ok none, st)
      | some p =>
        if n.compute then
          let previously := st.computing
          let st1 :=
            { setN st i { n with compute := false, elems := [] } with
                computing := some i, log := st.log ++ [i] }
          match step f (.progC p i) st1 with
          | (.ok v, st2) =>
            (.ok none, modN { st2 with computing := previously } i (fun m => { m with cache := v }))
          | (r, st2) => (r, { st2 with computing := previously })
        else (.ok none, st)
    | .progC p i =>
      match p with
      | .comp e => step f (.expr e) st
      | .eff body retC =>
        let st1 := if (getN st i).lastCleanup then { st with clog := st.clog ++ [i] } else st
        match step f (.expr body) st1 with
        | (.ok _, st2) => (.ok none, modN st2 i (fun m => { m with lastCleanup := retC }))
        | r => r

/-- Computed._run on node `i`. -/
def runNode (f : Nat) (i : Nat) (st : St) : Outc PyVal × St := step (f + 1) (.runN i) st

/-- The `value` property getter of node `i`. -/
def valueGet (f : Nat) (i : Nat) (st : St) : Outc PyVal × St := step (f + 1) (.vget i) st

/-- The `peek` method of node `i`. -/
def peekGet (f : Nat) (i : Nat) (st : St) : Outc PyVal × St := step (f + 1) (.pget i) st

/-- Computed._update on node `i`: mark dirty, then either run now (effects
in synchronous mode), stay lazy (exposing computeds), or enqueue (batch). -/
def updateNode (f : Nat) (i : Nat) (st : St) : Outc PyVal × St :=
  let st1 := modN st i (fun n => { n with compute := true })
  if st1.synchronous then
    if (getN st1 i).subscribe then (.ok none, st1) else runNode f i st1
  else (.ok none, { st1 with batched := setAdd st1.batched i })

/-- The notification loop of the Signal.value setter: `_update` each
drained dependent in order (a propagating exception aborts the loop). -/
def notifyList (f : Nat) (deps : List Nat) (st : St) : Outc PyVal × St :=
  match deps with
  | [] => (.ok none, st)
  | d :: rest =>
    match updateNode f d st with
    | (.ok _, st1) => notifyList f rest st1
    | r => r

/-- The Signal.value setter: identity short-circuit, else store, drain the
dependent set, notify each drained dependent. -/
def writeSignal (f : Nat) (i : Nat) (o : Obj) (st : St) : Outc PyVal × St :=
  if (getN st i).obj.oid = o.oid then (.ok none, st)
  else
    let st1 := modN st i (fun n => { n with obj := o })
    let pr := cleared st1 i
    notifyList f pr.1 pr.2

/-- The flush loop at the end of the outermost `batch`: for each drained
pending node still dirty, call `_update` (synchronous mode restored). -/
def flushList (f : Nat) (ids : List Nat) (st : St) : Outc PyVal × St :=
  match ids with
  | [] => (.ok none, st)
  | b :: rest =>
    if (getN st b).compute then
      match updateNode f b st with
      | (.ok _, st1) => flushList f rest st1
      | r => r
    else flushList f rest st

/-- The loop of the effect disposer: `signal.discard(fx)` for each drained
upstream signal. -/
def disposeLoop (i : Nat) (sigs : List Nat) (st : St) : St :=
  match sigs with
  | [] => st
  | s :: rest => disposeLoop i rest (modN st s (fun n => { n with elems := setDiscard n.elems i }))

/-- The `cleanup` disposer returned by `effect`: drain the effect's
upstream scratch set, discard the effect from each of those signals,
invoke the stored cleanup if callable. -/
def disposeEffect (i : Nat) (st : St) : St :=
  let pr := cleared st i
  let st2 := disposeLoop i pr.1 pr.2
  if (getN st2 i).lastCleanup then { st2 with clog := st2.clog ++ [i] } else st2

/-- Top-level statements of a test scenario (the host program driving the
library). -/
inductive Stmt where
  | writeS (i : Nat) (o : Obj)
  | readS (i : Nat)
  | peekS (i : Nat)
  | batchS (body : List Stmt)
  | untrackedS (body : List Stmt)
  | disposeS (i : Nat)
  | failS
deriving Repr

/-- Run a list of top-level statements.  `batchS` follows `batch` from the
source: save `synchronous`, clear it, run the callback, and on the
outermost batch restore the flag and flush the drained pending set; the
flag is restored even when the callback raises.  `untrackedS` follows
`untracked` likewise for `tracked`. -/
def evalStmts : Nat → List Stmt → St → Outc PyVal × St
  | 0, _, st => (.out, st)
  | _ + 1, [], st => (.ok none, st)
  | f + 1, s :: rest, st =>
    match s with
    | .writeS i o =>
      match writeSignal f i o st with
      | (.ok _, st1) => evalStmts f rest st1
      | r => r
    | .readS i =>
      match valueGet f i st with
      | (.ok _, st1) => evalStmts f rest st1
      | r => r
    | .peekS i =>
      match peekGet f i st with
      | (.ok _, st1) => evalStmts f rest st1
      | r => r
    | .disposeS i => evalStmts f rest (disposeEffect i st)
    | .failS => (.exc, st)
    | .untrackedS body =>
      let tracking := st.tracked
      match evalStmts f body { st with tracked := false } with
      | (.ok _, st1) => evalStmts f rest { st1 with tracked := tracking }
      | (r, st1) => (r, { st1 with tracked := tracking })
    | .batchS body =>
      let finalize := st.synchronous
      match evalStmts f body { st with synchronous := false } with
      | (.ok _, st1) =>
        if finalize && !st1.batched.isEmpty then
          let pr := clearedB { st1 with synchronous := finalize }
          match flushList f pr.1 pr.2 with
          | (.ok _, st4) => evalStmts f rest { st4 with synchronous := finalize }
          | (r2, st4) => (r2, { st4 with synchronous := finalize })
        else evalStmts f rest { st1 with synchronous := finalize }
      | (r, st1) => (r, { st1 with synchronous := finalize })

/-- Construct a Signal with an initial value. -/
def mkSignal (st : St) (o : Obj) : Nat × St :=
  (st.nodes.length, { st with nodes := st.nodes ++ [{ obj := o }] })

/-- Construct a value-exposing Computed from a producer (dirty, no cache). -/
def mkComputed (st : St) (e : Expr) : Nat × St :=
  (st.nodes.length, { st with nodes := st.nodes ++ [{ prog := some (.comp e), compute := true }] })

/-- Construct an effect: allocate the non-exposing computed wrapping the
callback, then eagerly force it via `fx.value` as the constructor does. -/
def mkEffect (f : Nat) (st : St) (body : Expr) (retC : Bool) : Nat × (Outc PyVal × St) :=
  let i := st.nodes.length
  let st1 : St :=
    { st with nodes := st.nodes ++ [{ prog := some (.eff body retC), subscribe := false, compute := true }] }
  (i, valueGet f i st1)

/-- Number of producer invocations of node `i` so far. -/
def countRuns (st : St) (i : Nat) : Nat := st.log.count i

/-! ### Concrete scenario states used by the claims -/

/-- C1 setup: signals `cond` (id 0, truthy 1), `a` (id 1, value 10),
`b` (id 2, value 20), and the computed `c` (id 3) with producer
`cond.value ? a.value : b.value`. -/
def C1st0 : St :=
  (mkComputed (mkSignal (mkSignal (mkSignal {} ⟨1, 1⟩).2 ⟨2, 10⟩).2 ⟨3, 20⟩).2
    (.iteE (.readV 0) (.readV 1) (.readV 2))).2

/-- C1: first read of `c` (selects branch `a`). -/
def C1r1 := valueGet 100 3 C1st0

/-- C1: flip `cond` to a falsy value. -/
def C1st1 := (writeSignal 100 0 ⟨4, 0⟩ C1r1.2).2

/-- C1: settling read of `c` (now selects branch `b`). -/
def C1r2 := valueGet 100 3 C1st1

def C1st2 := C1r2.2

/-- C1: first write to the abandoned branch `a` after the flip. -/
def C1st3 := (writeSignal 100 1 ⟨5, 11⟩ C1st2).2

/-- C1: read of `c` after the stale write. -/
def C1r3 := valueGet 100 3 C1st3

def C1st4 := C1r3.2

/-- C1: second write to the abandoned branch `a`. -/
def C1st5 := (writeSignal 100 1 ⟨6, 12⟩ C1st4).2

/-- C1: read of `c` after the second stale write. -/
def C1r4 := valueGet 100 3 C1st5

/-- C3 counterexample setup: signal `s` (id 0), exposing computed `c`
(id 1, producer `s.value * 2`). -/
def C3st0 : St := (mkComputed (mkSignal {} ⟨1, 1⟩).2 (.mulE (.readV 0) (.lit 2))).2

/-- C3 counterexample run: read `c` once (so it subscribes), then batch a
write to `s`, leaving `c` pending and dirty at drain time. -/
def C3r := evalStmts 100 [.readS 1, .batchS [.writeS 0 ⟨2, 2⟩]] C3st0

/-- C4 setup: signal `s` (id 0), computed `c = s.value * 2` (id 1), and an
effect (id 2) reading `c`, constructed eagerly. -/
def C4fx := mkEffect 100 (mkComputed (mkSignal {} ⟨1, 1⟩).2 (.mulE (.readV 0) (.lit 2))).2 (.readV 1) false

def C4st0 := C4fx.2.2

/-- C4 batch run: two writes to `s` inside one batch. -/
def C4batch := evalStmts 100 [.batchS [.writeS 0 ⟨2, 2⟩, .writeS 0 ⟨3, 3⟩]] C4st0

/-- C4 immediate-mode run: first write to `s` outside any batch. -/
def C4im1 := (writeSignal 100 0 ⟨2, 2⟩ C4st0).2

/-- C4 immediate-mode run: second write to `s` outside any batch. -/
def C4im2 := (writeSignal 100 0 ⟨3, 3⟩ C4im1).2

/-- C5 setup: signal `s` (id 0, value 1), computed `c = s.value * 2` (id 1). -/
def C5st0 : St := (mkComputed (mkSignal {} ⟨1, 1⟩).2 (.mulE (.readV 0) (.lit 2))).2

/-- C5: first read of `c`. -/
def C5r1 := valueGet 100 1 C5st0

def C5st1 := C5r1.2

/-- C5: write `s := 2` (fresh object identity). -/
def C5st2 := (writeSignal 100 0 ⟨2, 2⟩ C5st1).2

/-- C5: second read of `c`. -/
def C5r3 := valueGet 100 1 C5st2

/-- C6 setup: signal `s` (id 0) holding object `⟨1, 5⟩`, and an effect
(id 1) reading `s`, so notifications are observable as effect runs. -/
def C6st0 := (mkEffect 100 (mkSignal {} ⟨1, 5⟩).2 (.readV 0) false).2.2

/-- C6: write a structurally equal but distinct object (payload 5, fresh
identity 2). -/
def C6w1 := writeSignal 100 0 ⟨2, 5⟩ C6st0

/-- C7 setup: signal `S` (id 0), computed `A = S.value + 1` (id 1),
computed `B = A.value + 1` (id 2); `B` never mentions `S`. -/
def C7st0 : St :=
  (mkComputed (mkComputed (mkSignal {} ⟨1, 1⟩).2 (.addE (.readV 0) (.lit 1))).2
    (.addE (.readV 1) (.lit 1))).2

/-- C7: evaluate `B`. -/
def C7r1 := valueGet 100 2 C7st0

/-- C7: change `S`. -/
def C7st1 := (writeSignal 100 0 ⟨2, 5⟩ C7r1.2).2

/-- C7: re-read `B` after `S` changed. -/
def C7r2 := valueGet 100 2 C7st1

/-- C8 setup: signal `s` (id 0), effect (id 1) reading `s` whose callback
returns a cleanup callable. -/
def C8st0 := (mkEffect 100 (mkSignal {} ⟨1, 1⟩).2 (.readV 0) true).2.2

/-- C8: call the disposer. -/
def C8st1 := disposeEffect 1 C8st0

/-- C8: write to the previously-tracked signal after disposal. -/
def C8w := writeSignal 100 0 ⟨2, 2⟩ C8st1

/-- C8 batch variant: dispose inside a batch, then write inside the same
batch. -/
def C8b := evalStmts 100 [.batchS [.disposeS 1, .writeS 0 ⟨2, 2⟩]] C8st0

/-- C9 setup: signal `s` (id 0, value 7), effect (id 1) whose callback
reads `s` only inside `untracked`. -/
def C9st0 := (mkEffect 100 (mkSignal {} ⟨1, 7⟩).2 (.untrackedE (.readV 0)) false).2.2

/-- C9: write to `s` after the effect ran. -/
def C9w := writeSignal 100 0 ⟨2, 8⟩ C9st0

/-- C9: top-level `untracked` whose callback raises. -/
def C9u := evalStmts 100 [.untrackedS [.failS]] C9st0

/-- C10 setup: signal `s` (id 0), computed `c` (id 1) whose producer reads
`s` and then raises. -/
def C10st0 : St := (mkComputed (mkSignal {} ⟨1, 1⟩).2 (.addE (.readV 0) .raiseE)).2

/-- C10: first read of `c` (the producer raises). -/
def C10r1 := valueGet 100 1 C10st0

def C10st1 := C10r1.2

/-- C10: write to `s` after the failed run (a new invalidation). -/
def C10st2 := (writeSignal 100 0 ⟨2, 2⟩ C10st1).2

/-- C10: read of `c` after the new invalidation. -/
def C10r2 := valueGet 100 1 C10st2

/-- C10 effect variant: constructing an effect whose callback raises. -/
def C10e := mkEffect 100 {} .raiseE false

/-! ### Notions used by the general flush theorem (claim C3, amended) -/

/-- Two nodes agree on everything except possibly their embedded set. -/
def sameShape (n m : Node) : Prop :=
  n.prog = m.prog ∧ n.subscribe = m.subscribe ∧ n.compute = m.compute ∧
  n.cache = m.cache ∧ n.lastCleanup = m.lastCleanup ∧ n.obj = m.obj

/-- An evaluation step was quiet: all globals and logs are unchanged and
every node kept its shape (only dependency edges may have moved). -/
def quiet (st st' : St) : Prop :=
  st'.batched = st.batched ∧ st'.synchronous = st.synchronous ∧
  st'.tracked = st.tracked ∧ st'.computing = st.computing ∧
  st'.log = st.log ∧ st'.clog = st.clog ∧
  st'.nodes.length = st.nodes.length ∧
  ∀ j, sameShape (getN st j) (getN st' j)

/-- A producer expression that (in state `st`) only ever touches plain
signals: it never reads or peeks a computed node, never raises.  Such a
producer always succeeds and only moves dependency edges. -/
def sigOnly (st : St) : Expr → Bool
  | .lit _ => true
  | .readV i => (getN st i).prog.isNone
  | .peekV i => (getN st i).prog.isNone
  | .addE a b => sigOnly st a && sigOnly st b
  | .mulE a b => sigOnly st a && sigOnly st b
  | .iteE c t e => sigOnly st c && sigOnly st t && sigOnly st e
  | .untrackedE e => sigOnly st e
  | .raiseE => false

/-- Fuel sufficient to evaluate an expression whose reads all hit plain
signals. -/
def fcost : Expr → Nat
  | .lit _ => 1
  | .readV _ => 2
  | .peekV _ => 2
  | .addE a b => 1 + fcost a + fcost b
  | .mulE a b => 1 + fcost a + fcost b
  | .iteE c t e => 1 + fcost c + fcost t + fcost e
  | .untrackedE e => 1 + fcost e
  | .raiseE => 1

/-- Node `i` is a still-dirty effect (non-exposing) node. -/
def isDirtyEff (st : St) (i : Nat) : Bool :=
  (getN st i).compute && !(getN st i).subscribe

/-- Sanity condition on a pending node for the flush theorem: if it is a
non-exposing (effect) node, its callback body only reads plain signals and
the fuel covers it.  (Exposing computed nodes are unconstrained: the flush
never runs them.) -/
def effOk (f : Nat) (st : St) (i : Nat) : Prop :=
  (getN st i).subscribe = false →
    ∃ body rc, (getN st i).prog = some (.eff body rc) ∧
      sigOnly st body = true ∧ fcost body + 2 ≤ f

/-- Concrete drain-time state for the flush witness: a signal (id 0), a
dirty effect reading it (id 1), and a dirty exposing computed (id 2). -/
def C3wst : St :=
  { nodes :=
      [{ obj := ⟨1, 2⟩ },
       { prog := some (.eff (.readV 0) false), subscribe := false, compute := true },
       { prog := some (.comp (.readV 0)), compute := true, cache := some 1 }] }

end DomCue

namespace DomCue

/-! ### Helper lemmas about the heap and quiet evaluation -/

theorem getN_modN_ne (st : St) (i : Nat) (g : Node → Node) (j : Nat) (h : j ≠ i) :
    getN (modN st i g) j = getN st j := by
  unfold getN modN setN
  rw [List.getElem?_set_ne (by omega)]

theorem getN_modN_lt (st : St) (i : Nat) (g : Node → Node) (h : i < st.nodes.length) :
    getN (modN st i g) i = g (getN st i) := by
  unfold getN modN setN
  rw [List.getElem?_set_self h]
  rfl

theorem getN_modN_ge (st : St) (i : Nat) (g : Node → Node) (h : st.nodes.length ≤ i) :
    getN (modN st i g) i = getN st i := by
  unfold getN modN setN
  rw [List.getElem?_set, if_pos rfl, if_neg (by omega), List.getElem?_eq_none h]

theorem getN_modN_self_cases (st : St) (i : Nat) (g : Node → Node) :
    getN (modN st i g) i = g (getN st i) ∨ getN (modN st i g) i = getN st i := by
  rcases Nat.lt_or_ge i st.nodes.length with h | h
  · exact .inl (getN_modN_lt st i g h)
  · exact .inr (getN_modN_ge st i g h)

theorem sameShape_refl (n : Node) : sameShape n n := ⟨rfl, rfl, rfl, rfl, rfl, rfl⟩

theorem sameShape_trans {a b c : Node} (h1 : sameShape a b) (h2 : sameShape b c) :
    sameShape a c := by
  obtain ⟨p1, s1, c1, a1, l1, o1⟩ := h1
  obtain ⟨p2, s2, c2, a2, l2, o2⟩ := h2
  exact ⟨p1.trans p2, s1.trans s2, c1.trans c2, a1.trans a2, l1.trans l2, o1.trans o2⟩

theorem sameShape_modN_elems (st : St) (i j : Nat) (g : List Nat → List Nat) :
    sameShape (getN st j) (getN (modN st i (fun n => { n with elems := g n.elems })) j) := by
  rcases eq_or_ne j i with rfl | h
  · rcases getN_modN_self_cases st j (fun n => { n with elems := g n.elems }) with h1 | h1 <;>
      rw [h1] <;> exact ⟨rfl, rfl, rfl, rfl, rfl, rfl⟩
  · rw [getN_modN_ne st i _ j h]
    exact sameShape_refl _

theorem modN_length (st : St) (i : Nat) (g : Node → Node) :
    (modN st i g).nodes.length = st.nodes.length := List.length_set ..

theorem quiet_refl (st : St) : quiet st st :=
  ⟨rfl, rfl, rfl, rfl, rfl, rfl, rfl, fun _ => sameShape_refl _⟩

theorem quiet_trans {a b c : St} (h1 : quiet a b) (h2 : quiet b c) : quiet a c := by
  obtain ⟨b1, s1, t1, c1, l1, g1, e1, n1⟩ := h1
  obtain ⟨b2, s2, t2, c2, l2, g2, e2, n2⟩ := h2
  exact ⟨b2.trans b1, s2.trans s1, t2.trans t1, c2.trans c1, l2.trans l1, g2.trans g1,
    e2.trans e1, fun j => sameShape_trans (n1 j) (n2 j)⟩

theorem quiet_addElem (st : St) (i x : Nat) : quiet st (addElem st i x) :=
  ⟨rfl, rfl, rfl, rfl, rfl, rfl, modN_length st i _,
    fun j => sameShape_modN_elems st i j (fun l => setAdd l x)⟩

theorem sigOnly_congr {st st' : St} (h : ∀ j, (getN st' j).prog = (getN st j).prog) :
    ∀ e, sigOnly st' e = sigOnly st e := by
  intro e
  induction e with
  | lit n => rfl
  | readV i => simp [sigOnly, h i]
  | peekV i => simp [sigOnly, h i]
  | addE a b iha ihb => simp [sigOnly, iha, ihb]
  | mulE a b iha ihb => simp [sigOnly, iha, ihb]
  | iteE c t e ihc iht ihe => simp [sigOnly, ihc, iht, ihe]
  | untrackedE e ih => simp [sigOnly, ih]
  | raiseE => rfl

theorem getN_set_ne {st : St} {i : Nat} {v : Node} (st2 : St)
    (hn : st2.nodes = st.nodes.set i v) {j : Nat} (hj : j ≠ i) : getN st2 j = getN st j := by
  unfold getN
  rw [hn, List.getElem?_set_ne (by omega)]

theorem getN_set_self {st : St} {i : Nat} {v : Node} (st2 : St)
    (hn : st2.nodes = st.nodes.set i v) (h : i < st.nodes.length) : getN st2 i = v := by
  unfold getN
  rw [hn, List.getElem?_set_self h]
  rfl


theorem writeSignal_no_deps (f : Nat) (st : St) (i : Nat) (w : Obj)
    (h : (getN st i).elems = []) :
    ∃ st', writeSignal f i w st = (.ok none, st') ∧ st'.log = st.log ∧
      st'.batched = st.batched ∧
      (∀ j, j ≠ i → getN st' j = getN st j) ∧
      (getN st' i).compute = (getN st i).compute := by
  unfold writeSignal
  by_cases ho : (getN st i).obj.oid = w.oid
  · rw [if_pos ho]
    exact ⟨st, rfl, rfl, rfl, fun _ _ => rfl, rfl⟩
  · rw [if_neg ho]
    have he1 : (getN (modN st i (fun n => { n with obj := w })) i).elems = [] := by
      rcases getN_modN_self_cases st i (fun n => { n with obj := w }) with h1 | h1 <;>
        rw [h1] <;> exact h
    refine ⟨modN (modN st i (fun n => { n with obj := w })) i (fun n => { n with elems := [] }),
      ?_, rfl, rfl, ?_, ?_⟩
    · show notifyList f (getN (modN st i (fun n => { n with obj := w })) i).elems
        (modN (modN st i (fun n => { n with obj := w })) i (fun n => { n with elems := [] })) = _
      rw [he1]
      rfl
    · intro j hj
      rw [getN_modN_ne _ i _ j hj, getN_modN_ne st i _ j hj]
    · rcases getN_modN_self_cases (modN st i (fun n => { n with obj := w })) i
        (fun n => { n with elems := [] }) with h1 | h1 <;> rw [h1] <;>
        rcases getN_modN_self_cases st i (fun n => { n with obj := w }) with h2 | h2 <;> rw [h2]

/-- Evaluating a producer that only touches plain signals always succeeds
with some integer and is quiet: it only moves dependency edges. -/
theorem sigOnly_eval :
    ∀ (e : Expr) (f : Nat) (st : St), sigOnly st e = true → fcost e ≤ f →
      ∃ n st', step f (.expr e) st = (.ok (some n), st') ∧ quiet st st' := by
  intro e
  induction e with
  | lit m =>
    intro f st _ hf
    obtain ⟨f', rfl⟩ : ∃ f', f = f' + 1 := ⟨f - 1, by simp [fcost] at hf; omega⟩
    exact ⟨m, st, rfl, quiet_refl st⟩
  | readV i =>
    intro f st hs hf
    simp only [sigOnly] at hs
    have hp : (getN st i).prog = none := Option.isNone_iff_eq_none.mp hs
    simp only [fcost] at hf
    obtain ⟨f', rfl⟩ : ∃ f', f = f' + 1 + 1 := ⟨f - 2, by omega⟩
    by_cases ht : st.tracked
    · cases hc : st.computing with
      | none => exact ⟨(getN st i).obj.val, st, by simp [step, hp, ht, hc], quiet_refl st⟩
      | some c0 =>
        exact ⟨(getN st i).obj.val, addElem (addElem st c0 i) i c0,
          by simp [step, hp, ht, hc],
          quiet_trans (quiet_addElem st c0 i) (quiet_addElem (addElem st c0 i) i c0)⟩
    · exact ⟨(getN st i).obj.val, st, by simp [step, hp, ht], quiet_refl st⟩
  | peekV i =>
    intro f st hs hf
    simp only [sigOnly] at hs
    have hp : (getN st i).prog = none := Option.isNone_iff_eq_none.mp hs
    simp only [fcost] at hf
    obtain ⟨f', rfl⟩ : ∃ f', f = f' + 1 + 1 := ⟨f - 2, by omega⟩
    exact ⟨(getN st i).obj.val, st, by simp [step, hp], quiet_refl st⟩
  | addE a b iha ihb =>
    intro f st hs hf
    simp only [sigOnly, Bool.and_eq_true] at hs
    simp only [fcost] at hf
    obtain ⟨f', rfl⟩ : ∃ f', f = f' + 1 := ⟨f - 1, by omega⟩
    obtain ⟨x, st1, ha, qa⟩ := iha f' st hs.1 (by omega)
    have hsb : sigOnly st1 b = true := by
      rw [sigOnly_congr (fun j => ((qa.2.2.2.2.2.2.2 j).1).symm) b]
      exact hs.2
    obtain ⟨y, st2, hb, qb⟩ := ihb f' st1 hsb (by omega)
    refine ⟨x + y, st2, ?_, quiet_trans qa qb⟩
    simp [step, ha, hb]
  | mulE a b iha ihb =>
    intro f st hs hf
    simp only [sigOnly, Bool.and_eq_true] at hs
    simp only [fcost] at hf
    obtain ⟨f', rfl⟩ : ∃ f', f = f' + 1 := ⟨f - 1, by omega⟩
    obtain ⟨x, st1, ha, qa⟩ := iha f' st hs.1 (by omega)
    have hsb : sigOnly st1 b = true := by
      rw [sigOnly_congr (fun j => ((qa.2.2.2.2.2.2.2 j).1).symm) b]
      exact hs.2
    obtain ⟨y, st2, hb, qb⟩ := ihb f' st1 hsb (by omega)
    refine ⟨x * y, st2, ?_, quiet_trans qa qb⟩
    simp [step, ha, hb]
  | iteE c t e2 ihc iht ihe =>
    intro f st hs hf
    simp only [sigOnly, Bool.and_eq_true] at hs
    simp only [fcost] at hf
    obtain ⟨f', rfl⟩ : ∃ f', f = f' + 1 := ⟨f - 1, by omega⟩
    obtain ⟨v, st1, hc, qc⟩ := ihc f' st hs.1.1 (by omega)
    by_cases hv : truthy (some v) = true
    · have hst : sigOnly st1 t = true := by
        rw [sigOnly_congr (fun j => ((qc.2.2.2.2.2.2.2 j).1).symm) t]
        exact hs.1.2
      obtain ⟨x, st2, h2, q2⟩ := iht f' st1 hst (by omega)
      refine ⟨x, st2, ?_, quiet_trans qc q2⟩
      simp [step, hc, hv, h2]
    · have hse : sigOnly st1 e2 = true := by
        rw [sigOnly_congr (fun j => ((qc.2.2.2.2.2.2.2 j).1).symm) e2]
        exact hs.2
      obtain ⟨x, st2, h2, q2⟩ := ihe f' st1 hse (by omega)
      refine ⟨x, st2, ?_, quiet_trans qc q2⟩
      simp [step, hc, hv, h2]
  | untrackedE e1 ih =>
    intro f st hs hf
    simp only [sigOnly] at hs
    simp only [fcost] at hf
    obtain ⟨f', rfl⟩ : ∃ f', f = f' + 1 := ⟨f - 1, by omega⟩
    have hs1 : sigOnly { st with tracked := false } e1 = true :=
      (@sigOnly_congr st { st with tracked := false } (fun _ => rfl) e1).trans hs
    obtain ⟨x, st1, h1, q1⟩ := ih f' { st with tracked := false } hs1 (by omega)
    obtain ⟨qb, qs, qt, qc, ql, qcl, qe, qsh⟩ := q1
    refine ⟨x, { st1 with tracked := st.tracked }, ?_, qb, qs, rfl, qc, ql, qcl, qe, fun j => qsh j⟩
    simp [step, h1]
  | raiseE =>
    intro f st hs _
    simp [sigOnly] at hs

theorem runNode_eff_spec (f1 : Nat) (i : Nat) (st : St) (body : Expr) (rc : Bool)
    (hlen : i < st.nodes.length)
    (hp : (getN st i).prog = some (.eff body rc))
    (hc : (getN st i).compute = true)
    (hs : sigOnly st body = true)
    (hf : fcost body ≤ f1) :
    ∃ st', runNode (f1 + 1) i st = (.ok none, st') ∧
      st'.log = st.log ++ [i] ∧
      st'.synchronous = st.synchronous ∧ st'.tracked = st.tracked ∧
      st'.computing = st.computing ∧ st'.batched = st.batched ∧
      st'.nodes.length = st.nodes.length ∧
      (∀ j, j ≠ i → sameShape (getN st j) (getN st' j)) ∧
      (∀ j, (getN st' j).prog = (getN st j).prog ∧
            (getN st' j).subscribe = (getN st j).subscribe ∧
            (getN st' j).obj = (getN st j).obj) ∧
      (getN st' i).compute = false := by
  have eq_run : runNode (f1 + 1) i st =
      match step (f1 + 1) (.progC (.eff body rc) i)
        { setN st i { getN st i with compute := false, elems := [] } with
            computing := some i, log := st.log ++ [i] } with
      | (.ok v, s2) =>
        (.ok none, modN { s2 with computing := st.computing } i (fun m => { m with cache := v }))
      | (r, s2) => (r, { s2 with computing := st.computing }) := by
    show step (f1 + 1 + 1) (.runN i) st = _
    conv_lhs => rw [step.eq_def]
    simp only [hp, hc, if_true]
  have hget2 : getN { setN st i { getN st i with compute := false, elems := [] } with
      computing := some i, log := st.log ++ [i] } i =
      { getN st i with compute := false, elems := [] } :=
    getN_set_self _ rfl hlen
  have eprog0 : step (f1 + 1) (.progC (.eff body rc) i)
      { setN st i { getN st i with compute := false, elems := [] } with
          computing := some i, log := st.log ++ [i] } =
      (match step f1 (.expr body)
        (if (getN { setN st i { getN st i with compute := false, elems := [] } with
              computing := some i, log := st.log ++ [i] } i).lastCleanup then
          { { setN st i { getN st i with compute := false, elems := [] } with
              computing := some i, log := st.log ++ [i] } with
            clog := { setN st i { getN st i with compute := false, elems := [] } with
              computing := some i, log := st.log ++ [i] }.clog ++ [i] }
        else { setN st i { getN st i with compute := false, elems := [] } with
              computing := some i, log := st.log ++ [i] }) with
       | (.ok _, st2) => (.ok none, modN st2 i (fun m => { m with lastCleanup := rc }))
       | r => r) := rfl
  have key : ∃ st3 : St,
      st3.nodes = st.nodes.set i { getN st i with compute := false, elems := [] } ∧
      st3.synchronous = st.synchronous ∧ st3.tracked = st.tracked ∧
      st3.log = st.log ++ [i] ∧ st3.batched = st.batched ∧
      step (f1 + 1) (.progC (.eff body rc) i)
        { setN st i { getN st i with compute := false, elems := [] } with
            computing := some i, log := st.log ++ [i] } =
      (match step f1 (.expr body) st3 with
       | (.ok _, st2) => (.ok none, modN st2 i (fun m => { m with lastCleanup := rc }))
       | r => r) := by
    rcases Bool.eq_false_or_eq_true ((getN st i).lastCleanup) with hcl | hcl
    · have hcl2 : (getN { setN st i { getN st i with compute := false, elems := [] } with
          computing := some i, log := st.log ++ [i] } i).lastCleanup = true := by
        rw [hget2]
        exact hcl
      refine ⟨{ { setN st i { getN st i with compute := false, elems := [] } with
          computing := some i, log := st.log ++ [i] } with
          clog := { setN st i { getN st i with compute := false, elems := [] } with
            computing := some i, log := st.log ++ [i] }.clog ++ [i] },
        rfl, rfl, rfl, rfl, rfl, ?_⟩
      rw [eprog0, if_pos hcl2]
    · have hcl2 : (getN { setN st i { getN st i with compute := false, elems := [] } with
          computing := some i, log := st.log ++ [i] } i).lastCleanup = false := by
        rw [hget2]
        exact hcl
      refine ⟨{ setN st i { getN st i with compute := false, elems := [] } with
          computing := some i, log := st.log ++ [i] },
        rfl, rfl, rfl, rfl, rfl, ?_⟩
      rw [eprog0, if_neg (by simp [hcl2])]
  obtain ⟨st3, h3n, h3s, h3t, h3l, h3b, eprog⟩ := key
  have hs3 : sigOnly st3 body = true := by
    refine (sigOnly_congr ?_ body).trans hs
    intro j
    rcases eq_or_ne j i with rfl | hj
    · rw [getN_set_self st3 h3n hlen]
    · rw [getN_set_ne st3 h3n hj]
  obtain ⟨x, st4, h4, q4⟩ := sigOnly_eval body f1 st3 hs3 hf
  obtain ⟨qb, qs, qt, qc, ql, qcl, qe, qsh⟩ := q4
  have hlen3 : st3.nodes.length = st.nodes.length := by rw [h3n, List.length_set]
  have hlen4 : i < st4.nodes.length := by omega
  have h3i : getN st3 i = { getN st i with compute := false, elems := [] } :=
    getN_set_self st3 h3n hlen
  set M : St := { modN st4 i (fun m => { m with lastCleanup := rc }) with
    computing := st.computing } with hMdef
  set FE : St := modN M i (fun m => { m with cache := none }) with hFEdef
  have hlenM : i < M.nodes.length := by
    have h2 : M.nodes.length = st4.nodes.length := by
      rw [hMdef]
      exact modN_length st4 i (fun m => { m with lastCleanup := rc })
    omega
  have hgM : getN M i = { getN st4 i with lastCleanup := rc } := by
    rw [hMdef]
    exact getN_modN_lt st4 i (fun m => { m with lastCleanup := rc }) hlen4
  have hFEi : getN FE i = { getN st4 i with lastCleanup := rc, cache := none } := by
    rw [hFEdef, getN_modN_lt M i (fun m => { m with cache := none }) hlenM, hgM]
  have hFEne : ∀ j, j ≠ i → getN FE j = getN st4 j := by
    intro j hj
    rw [hFEdef, getN_modN_ne M i (fun m => { m with cache := none }) j hj, hMdef]
    exact getN_modN_ne st4 i (fun m => { m with lastCleanup := rc }) j hj
  have hFElog : FE.log = st4.log := by rw [hFEdef, hMdef]; rfl
  have hFEsyn : FE.synchronous = st4.synchronous := by rw [hFEdef, hMdef]; rfl
  have hFEtr : FE.tracked = st4.tracked := by rw [hFEdef, hMdef]; rfl
  have hFEb : FE.batched = st4.batched := by rw [hFEdef, hMdef]; rfl
  refine ⟨FE, ?_, ?_, ?_, ?_, ?_, ?_, ?_, ?_, ?_, ?_⟩
  · rw [hFEdef, hMdef, eq_run, eprog, h4]
  · rw [hFElog, ql, h3l]
  · rw [hFEsyn, qs, h3s]
  · rw [hFEtr, qt, h3t]
  · rw [hFEdef, hMdef]
    rfl
  · rw [hFEb, qb, h3b]
  · have h1 : FE.nodes.length = M.nodes.length := by
      rw [hFEdef]
      exact modN_length M i (fun m => { m with cache := none })
    have h2 : M.nodes.length = st4.nodes.length := by
      rw [hMdef]
      exact modN_length st4 i (fun m => { m with lastCleanup := rc })
    omega
  · intro j hj
    rw [hFEne j hj]
    have h := qsh j
    rw [getN_set_ne st3 h3n hj] at h
    exact h
  · intro j
    rcases eq_or_ne j i with rfl | hj
    · have h1 := (qsh j).1
      have h2 := (qsh j).2.1
      have h6 := (qsh j).2.2.2.2.2
      rw [h3i] at h1 h2 h6
      rw [hFEi]
      exact ⟨h1.symm, h2.symm, h6.symm⟩
    · rw [hFEne j hj]
      have h := qsh j
      rw [getN_set_ne st3 h3n hj] at h
      exact ⟨h.1.symm, h.2.1.symm, h.2.2.2.2.2.symm⟩
  · have h := (qsh i).2.2.1
    rw [h3i] at h
    rw [hFEi]
    exact h.symm


theorem getN_out_of_range {st : St} {i : Nat} (h : st.nodes.length ≤ i) : getN st i = {} := by
  unfold getN
  rw [List.getElem?_eq_none h]
  rfl

theorem updateNode_eff_spec (f : Nat) (i : Nat) (st : St) (body : Expr) (rc : Bool)
    (hsync : st.synchronous = true)
    (hsub : (getN st i).subscribe = false)
    (hp : (getN st i).prog = some (.eff body rc))
    (hc : (getN st i).compute = true)
    (hs : sigOnly st body = true)
    (hf : fcost body + 2 ≤ f) :
    ∃ st', updateNode f i st = (.ok none, st') ∧
      st'.log = st.log ++ [i] ∧
      st'.synchronous = st.synchronous ∧ st'.tracked = st.tracked ∧
      st'.computing = st.computing ∧ st'.batched = st.batched ∧
      st'.nodes.length = st.nodes.length ∧
      (∀ j, j ≠ i → sameShape (getN st j) (getN st' j)) ∧
      (∀ j, (getN st' j).prog = (getN st j).prog ∧
            (getN st' j).subscribe = (getN st j).subscribe ∧
            (getN st' j).obj = (getN st j).obj) ∧
      (getN st' i).compute = false := by
  obtain ⟨f1, rfl⟩ : ∃ f1, f = f1 + 1 := ⟨f - 1, by omega⟩
  have hlen : i < st.nodes.length := by
    by_contra h
    rw [getN_out_of_range (Nat.le_of_not_lt h)] at hp
    simp at hp
  have hnode : { getN st i with compute := true } = getN st i := by
    cases hni : getN st i with
    | mk p sb ob cp ca lc el =>
      rw [hni] at hc
      simp only [] at hc
      simp [hc]
  have hst1 : ∀ j, getN (modN st i (fun n => { n with compute := true })) j = getN st j := by
    intro j
    rcases eq_or_ne j i with rfl | hj
    · rw [getN_modN_lt st j (fun n => { n with compute := true }) hlen]
      exact hnode
    · exact getN_modN_ne st i _ j hj
  have c1 : (modN st i (fun n => { n with compute := true })).synchronous = true := hsync
  have c2 : (getN (modN st i (fun n => { n with compute := true })) i).subscribe = false := by
    rw [hst1 i]
    exact hsub
  have e1 : updateNode (f1 + 1) i st =
      runNode (f1 + 1) i (modN st i (fun n => { n with compute := true })) := by
    unfold updateNode
    rw [if_pos c1, if_neg (by simp [c2])]
  obtain ⟨st', hrun, hlog, hsyn, htr, hcomp, hb, hlenq, hshape, hproj, hcompi⟩ :=
    runNode_eff_spec f1 i (modN st i (fun n => { n with compute := true })) body rc
      (by rw [modN_length]; exact hlen)
      (by rw [hst1 i]; exact hp)
      (by rw [hst1 i]; exact hc)
      ((sigOnly_congr (fun j => congrArg Node.prog (hst1 j)) body).trans hs)
      (by omega)
  refine ⟨st', by rw [e1, hrun], ?_, hsyn, htr, hcomp, hb, ?_, ?_, ?_, hcompi⟩
  · exact hlog
  · rw [hlenq, modN_length]
  · intro j hj
    have h := hshape j hj
    rw [hst1 j] at h
    exact h
  · intro j
    have h := hproj j
    rw [hst1 j] at h
    exact h


theorem flush_spec :
    ∀ (ids : List Nat) (f : Nat) (st : St),
      st.synchronous = true →
      ids.Nodup →
      (∀ i ∈ ids, effOk f st i) →
      ∃ st', flushList f ids st = (.ok none, st') ∧
        st'.log = st.log ++ ids.filter (fun i => isDirtyEff st i) ∧
        st'.synchronous = st.synchronous ∧ st'.tracked = st.tracked ∧
        st'.computing = st.computing ∧ st'.batched = st.batched ∧
        st'.nodes.length = st.nodes.length ∧
        (∀ j, (getN st' j).prog = (getN st j).prog ∧
              (getN st' j).subscribe = (getN st j).subscribe) ∧
        (∀ j, j ∉ ids → sameShape (getN st j) (getN st' j)) ∧
        (∀ i ∈ ids, (getN st i).subscribe = true → sameShape (getN st i) (getN st' i)) ∧
        (∀ i ∈ ids, isDirtyEff st i = true → (getN st' i).compute = false) := by
  intro ids
  induction ids with
  | nil =>
    intro f st hsync _ _
    exact ⟨st, rfl, by simp, rfl, rfl, rfl, rfl, rfl, fun j => ⟨rfl, rfl⟩,
      fun j _ => sameShape_refl _, fun i hi => absurd hi (List.not_mem_nil i),
      fun i hi => absurd hi (List.not_mem_nil i)⟩
  | cons b rest ih =>
    intro f st hsync hnd hok
    have hndr : rest.Nodup := (List.nodup_cons.mp hnd).2
    have hbnr : b ∉ rest := (List.nodup_cons.mp hnd).1
    by_cases hcb : (getN st b).compute = true
    · by_cases hsb : (getN st b).subscribe = true
      · -- still-dirty exposing computed: updateNode only re-marks the already-dirty flag
        have hlenb : b < st.nodes.length := by
          by_contra h
          rw [getN_out_of_range (Nat.le_of_not_lt h)] at hcb
          simp at hcb
        have hnode : { getN st b with compute := true } = getN st b := by
          cases hni : getN st b with
          | mk p sb ob cp ca lc el =>
            rw [hni] at hcb
            simp only [] at hcb
            simp [hcb]
        have hst1 : ∀ j, getN (modN st b (fun n => { n with compute := true })) j = getN st j := by
          intro j
          rcases eq_or_ne j b with rfl | hj
          · rw [getN_modN_lt st j (fun n => { n with compute := true }) hlenb]
            exact hnode
          · exact getN_modN_ne st b _ j hj
        have c1 : (modN st b (fun n => { n with compute := true })).synchronous = true := hsync
        have c2 : (getN (modN st b (fun n => { n with compute := true })) b).subscribe = true := by
          rw [hst1 b]
          exact hsb
        have e : updateNode f b st = (.ok none, modN st b (fun n => { n with compute := true })) := by
          unfold updateNode
          rw [if_pos c1, if_pos c2]
        have hok1 : ∀ i ∈ rest, effOk f (modN st b (fun n => { n with compute := true })) i := by
          intro i hi hsubx
          rw [hst1 i] at hsubx
          obtain ⟨bd, rc, hp, hsig, hfu⟩ := hok i (List.mem_cons_of_mem b hi) hsubx
          exact ⟨bd, rc, by rw [hst1 i]; exact hp,
            (sigOnly_congr (fun j => congrArg Node.prog (hst1 j)) bd).trans hsig, hfu⟩
        obtain ⟨st', heq, hlog, hsyn, htr, hcomp, hbat, hlenq, hproj, hout, hsubsh, hdirty⟩ :=
          ih f (modN st b (fun n => { n with compute := true })) c1 hndr hok1
        have hfeq : flushList f (b :: rest) st = (.ok none, st') := by
          simp only [flushList]
          rw [if_pos hcb, e]
          exact heq
        refine ⟨st', hfeq, ?_, hsyn, htr, hcomp, hbat, ?_, ?_, ?_, ?_, ?_⟩
        · rw [hlog]
          have hfc : rest.filter (fun i => isDirtyEff (modN st b (fun n => { n with compute := true })) i)
              = rest.filter (fun i => isDirtyEff st i) := by
            refine List.filter_congr ?_
            intro x _
            unfold isDirtyEff
            rw [hst1 x]
          rw [hfc, List.filter_cons,
            show (modN st b (fun n => { n with compute := true })).log = st.log from rfl,
            show isDirtyEff st b = false from by simp [isDirtyEff, hsb]]
          simp
        · rw [hlenq, modN_length]
        · intro j
          have h := hproj j
          rw [hst1 j] at h
          exact h
        · intro j hj
          have h := hout j (fun h => hj (List.mem_cons_of_mem b h))
          rw [hst1 j] at h
          exact h
        · intro i hi hsubi
          rcases List.mem_cons.mp hi with rfl | hir
          · have h := hout i hbnr
            rw [hst1 i] at h
            exact h
          · have h := hsubsh i hir (by rw [hst1 i]; exact hsubi)
            rw [hst1 i] at h
            exact h
        · intro i hi hdi
          rcases List.mem_cons.mp hi with rfl | hir
          · rw [show isDirtyEff st i = false from by simp [isDirtyEff, hsb]] at hdi
            exact absurd hdi (by simp)
          · refine hdirty i hir ?_
            unfold isDirtyEff
            rw [hst1 i]
            exact hdi
      · -- still-dirty effect node: re-run exactly once
        have hsb' : (getN st b).subscribe = false := by
          revert hsb
          cases h : (getN st b).subscribe <;> simp
        obtain ⟨bd, rc, hp, hsig, hfu⟩ := hok b (List.mem_cons_self b rest) hsb'
        obtain ⟨st1, herun, hlog1, hsyn1, htr1, hcomp1, hbat1, hlen1, hshape1, hproj1, hcompb⟩ :=
          updateNode_eff_spec f b st bd rc hsync hsb' hp hcb hsig hfu
        have hok1 : ∀ i ∈ rest, effOk f st1 i := by
          intro i hi hsubx
          rw [(hproj1 i).2.1] at hsubx
          obtain ⟨bd2, rc2, hp2, hsig2, hfu2⟩ := hok i (List.mem_cons_of_mem b hi) hsubx
          exact ⟨bd2, rc2, by rw [(hproj1 i).1]; exact hp2,
            (sigOnly_congr (fun j => (hproj1 j).1) bd2).trans hsig2, hfu2⟩
        obtain ⟨st', heq, hlog, hsyn, htr, hcomp, hbat, hlenq, hproj, hout, hsubsh, hdirty⟩ :=
          ih f st1 (hsyn1.trans hsync) hndr hok1
        have hfeq : flushList f (b :: rest) st = (.ok none, st') := by
          simp only [flushList]
          rw [if_pos hcb, herun]
          exact heq
        have hshEq : ∀ x, x ≠ b → isDirtyEff st1 x = isDirtyEff st x := by
          intro x hx
          unfold isDirtyEff
          rw [← (hshape1 x hx).2.2.1, (hproj1 x).2.1]
        refine ⟨st', hfeq, ?_, hsyn.trans hsyn1, htr.trans htr1, hcomp.trans hcomp1,
          hbat.trans hbat1, ?_, ?_, ?_, ?_, ?_⟩
        · rw [hlog, hlog1]
          have hfc : rest.filter (fun i => isDirtyEff st1 i) = rest.filter (fun i => isDirtyEff st i) :=
            List.filter_congr (fun x hx => hshEq x (fun h => hbnr (h ▸ hx)))
          rw [hfc, List.filter_cons,
            show isDirtyEff st b = true from by simp [isDirtyEff, hcb, hsb']]
          simp
        · rw [hlenq, hlen1]
        · intro j
          exact ⟨(hproj j).1.trans (hproj1 j).1, (hproj j).2.trans (hproj1 j).2.1⟩
        · intro j hj
          have hjb : j ≠ b := fun h => hj (h ▸ List.mem_cons_self b rest)
          have hjr : j ∉ rest := fun h => hj (List.mem_cons_of_mem b h)
          exact sameShape_trans (hshape1 j hjb) (hout j hjr)
        · intro i hi hsubi
          rcases List.mem_cons.mp hi with rfl | hir
          · rw [hsb'] at hsubi
            exact absurd hsubi (by simp)
          · have hib : i ≠ b := fun h => hbnr (h ▸ hir)
            refine sameShape_trans (hshape1 i hib) (hsubsh i hir ?_)
            rw [(hproj1 i).2.1]
            exact hsubi
        · intro i hi hdi
          rcases List.mem_cons.mp hi with rfl | hir
          · have h := (hout i hbnr).2.2.1
            rw [← h]
            exact hcompb
          · have hib : i ≠ b := fun h => hbnr (h ▸ hir)
            exact hdirty i hir ((hshEq i hib).trans hdi)
    · -- clean node: skipped entirely
      have hcb' : (getN st b).compute = false := by
        revert hcb
        cases h : (getN st b).compute <;> simp
      have hfeq0 : flushList f (b :: rest) st = flushList f rest st := by
        simp only [flushList]
        rw [if_neg (by simp [hcb'])]
      obtain ⟨st', heq, hlog, hsyn, htr, hcomp, hbat, hlenq, hproj, hout, hsubsh, hdirty⟩ :=
        ih f st hsync hndr (fun i hi => hok i (List.mem_cons_of_mem b hi))
      refine ⟨st', hfeq0.trans heq, ?_, hsyn, htr, hcomp, hbat, hlenq, hproj, ?_, ?_, ?_⟩
      · rw [hlog, List.filter_cons,
          show isDirtyEff st b = false from by simp [isDirtyEff, hcb']]
        simp
      · intro j hj
        exact hout j (fun h => hj (List.mem_cons_of_mem b h))
      · intro i hi hsubi
        rcases List.mem_cons.mp hi with rfl | hir
        · exact hout i hbnr
        · exact hsubsh i hir hsubi
      · intro i hi hdi
        rcases List.mem_cons.mp hi with rfl | hir
        · rw [show isDirtyEff st i = false from by simp [isDirtyEff, hcb']] at hdi
          exact absurd hdi (by simp)
        · exact hdirty i hir hdi

/-- C5: laziness of value-exposing computeds.  The first read of
`c = computed(s.value * 2)` yields 2 after one producer run; the write
`s := 2` does not itself recompute `c` (its run count stays 1, it is
merely marked dirty); the first subsequent read yields 4 with exactly one
further producer run. -/
theorem C5_lazy_computed :
    C5r1.1 = .ok (some 2) ∧ countRuns C5st1 1 = 1 ∧
    countRuns C5st2 1 = 1 ∧ (getN C5st2 1).compute = true ∧
    C5r3.1 = .ok (some 4) ∧ countRuns C5r3.2 1 = 2 := by
  decide

/-- C1 counterexample: after flipping `cond` and settling via a read
(producer run count 2), the computed is *not* unsubscribed from the
abandoned branch `a` (`a`'s dependent set still holds it), so the next
write to `a` marks it dirty and its next read re-runs the producer (run
count 3), contradicting the claim that the write causes no recomputation. -/
theorem C1_stale_branch_recomputes :
    C1r1.1 = .ok (some 10) ∧ C1r2.1 = .ok (some 20) ∧
    countRuns C1st2 3 = 2 ∧ 3 ∈ (getN C1st2 1).elems ∧
    (getN C1st3 3).compute = true ∧ countRuns C1st4 3 = 3 := by
  decide

/-- C1 amended: the first write to the abandoned branch after the flip
still invalidates the computed (its stale dependent edge survives until
that write drains it), and the following read re-runs the producer, which
yields the unchanged value 20; that write drained the stale edge, so any
further write to the abandoned branch — with any payload and any object
identity — runs no producer and leaves the computed clean, and concretely
a second write followed by a read returns the cached value with no
further producer run. -/
theorem C1_stale_branch_drained_after_first_write :
    C1r3.1 = .ok (some 20) ∧ (getN C1st4 1).elems = [] ∧
    (getN C1st5 3).compute = false ∧ countRuns C1st5 3 = 3 ∧
    C1r4.1 = .ok (some 20) ∧ countRuns C1r4.2 3 = 3 ∧
    (∀ w : Obj, (writeSignal 100 1 w C1st4).2.log = C1st4.log ∧
      (getN (writeSignal 100 1 w C1st4).2 3).compute = false) := by
  refine ⟨by decide, by decide, by decide, by decide, by decide, by decide, ?_⟩
  intro w
  obtain ⟨st', heq, hlog, _, hne, _⟩ := writeSignal_no_deps 100 C1st4 1 w (by decide)
  have e2 : (writeSignal 100 1 w C1st4).2 = st' := by rw [heq]
  constructor
  · rw [e2]
    exact hlog
  · rw [e2, hne 3 (by decide)]
    decide

/-- C2: evaluating `Set.discard` at the failing input.  When the value is
present, the first identity match is removed ([5, 7, 9] minus 7 gives
[5, 9]); on an empty set it is a no-op; but when the value is absent from
a non-empty set the loop counter stops at the last index and `pop(i)`
removes the last element: discarding 7 from [5] yields [] instead of
leaving [5] unchanged, contradicting the claim (and the method's own
docstring). -/
theorem C2_discard_absent_pops_last :
    setDiscard [5] 7 = [] ∧ setDiscard [5, 7, 9] 7 = [5, 9] ∧
    setDiscard [] 7 = [] ∧ setDiscard [5] 7 ≠ [5] := by
  decide

/-- C3 counterexample: with `s = signal(1)` and the exposing computed
`c = computed(s.value * 2)` read once (so it subscribed and ran once),
`batch(s := 2)` leaves `c` pending and dirty at drain time; the claim
says every such node is re-run exactly once by the flush (run count 2),
but the flush leaves the producer run count at 1 and the node still
dirty: value-exposing computeds are not run by the flush. -/
theorem C3_flush_skips_exposing_computed :
    C3r.1 = .ok none ∧ countRuns C3r.2 1 = 1 ∧ (getN C3r.2 1).compute = true := by
  decide

/-- C3 amended: when the outermost batch completes, the drained pending
set is processed in enqueue order, and each node still dirty at its turn
is handled by `_update`, which re-runs only non-exposing (effect) nodes:
the run log is extended by exactly the ids of the still-dirty effect
nodes, once each, in enqueue order, and each such effect ends up clean;
a still-dirty value-exposing computed node is not run — its whole shape
(dirty flag, cached value, producer) is left untouched, so it recomputes
only at its next read.  Stated for any drained pending list without
duplicates (the pending set is an identity set) whose effect callbacks
read only plain signals, with enough fuel. -/
theorem C3_flush_runs_effects_once_in_order
    (ids : List Nat) (f : Nat) (st : St)
    (hsync : st.synchronous = true)
    (hnd : ids.Nodup)
    (hok : ∀ i ∈ ids, effOk f st i) :
    (flushList f ids st).1 = .ok none ∧
    (flushList f ids st).2.log = st.log ++ ids.filter (fun i => isDirtyEff st i) ∧
    (∀ i ∈ ids, (getN st i).subscribe = true →
      sameShape (getN st i) (getN (flushList f ids st).2 i)) ∧
    (∀ i ∈ ids, isDirtyEff st i = true → (getN (flushList f ids st).2 i).compute = false) := by
  obtain ⟨st', heq, hlog, _, _, _, _, _, _, _, hsubsh, hdirty⟩ :=
    flush_spec ids f st hsync hnd hok
  rw [heq]
  exact ⟨rfl, hlog, hsubsh, hdirty⟩

/-- C3 amended witness: flushing the pending list `[1, 2]` of the concrete
drain-time state (effect 1 and exposing computed 2, both dirty) succeeds,
runs exactly the effect — the log becomes `[1]` — and leaves the computed
still dirty. -/
theorem C3_flush_runs_effects_once_in_order_witness :
    (flushList 20 [1, 2] C3wst).1 = .ok none ∧
    (flushList 20 [1, 2] C3wst).2.log = [1] ∧
    (getN (flushList 20 [1, 2] C3wst).2 2).compute = true := by
  have h := C3_flush_runs_effects_once_in_order [1, 2] 20 C3wst rfl (by decide) (by
    intro i hi
    fin_cases hi
    · intro _
      exact ⟨.readV 0, false, by decide, by decide, by decide⟩
    · intro hsub
      exact absurd hsub (by decide))
  refine ⟨h.1, ?_, ?_⟩
  · rw [h.2.1]
    decide
  · have h2 := (h.2.2.1 2 (by decide) (by decide)).2.2.1
    rw [← h2]
    decide

/-- C4: effects are eager.  Construction runs the effect once.  In a batch,
two writes to the upstream signal collapse into exactly one flush re-run
(total 2 runs); outside a batch each of two writes re-runs the effect
immediately (run counts 2 then 3). -/
theorem C4_effect_batching :
    C4fx.1 = 2 ∧ countRuns C4st0 2 = 1 ∧
    C4batch.1 = .ok none ∧ countRuns C4batch.2 2 = 2 ∧
    countRuns C4im1 2 = 2 ∧ countRuns C4im2 2 = 3 := by
  decide

/-- C6: the identity-based write short-circuit.  Universally, writing an
object whose identity equals the current value's identity returns with
the state completely unchanged (no notification, no invalidation, the
dependent set untouched); and concretely, writing a structurally equal
object with a fresh identity is treated as a change: the dependent effect
re-runs (run count 1 becomes 2). -/
theorem C6_identity_write_short_circuit :
    (∀ (f : Nat) (st : St) (i : Nat) (w : Obj), (getN st i).obj.oid = w.oid →
      writeSignal f i w st = (.ok none, st)) ∧
    countRuns C6st0 1 = 1 ∧ C6w1.1 = .ok none ∧ countRuns C6w1.2 1 = 2 := by
  refine ⟨?_, by decide⟩
  intro f st i w h
  simp [writeSignal, h]

/-- C6 witness: on the concrete post-write state, node 0 holds the object
`⟨2, 5⟩`, and writing that very object back is a complete no-op. -/
theorem C6_identity_write_short_circuit_witness :
    writeSignal 50 0 ⟨2, 5⟩ C6w1.2 = (.ok none, C6w1.2) :=
  C6_identity_write_short_circuit.1 50 C6w1.2 0 ⟨2, 5⟩ (by decide)

/-- C7: dependency flattening.  After evaluating `B = computed(A.value+1)`
with `A = computed(S.value+1)`: `S`'s dependent set is `[A, B]`, so `B`
(id 2) is subscribed to `S` directly; the intermediate `A` holds no
dependents (it is not a subscription target); and after `S` changes,
reading `B` recomputes it (run count 2) to the new value even though `B`'s
producer never references `S`. -/
theorem C7_dependency_flattening :
    C7r1.1 = .ok (some 3) ∧
    (getN C7r1.2 0).elems = [1, 2] ∧ 2 ∈ (getN C7r1.2 0).elems ∧
    (getN C7r1.2 1).elems = [] ∧
    C7r2.1 = .ok (some 7) ∧ countRuns C7r2.2 2 = 2 := by
  decide

/-- C8: effect disposal.  Before disposal the signal's dependent set holds
the effect; the disposer drains the effect's upstream scratch set, removes
the effect from the signal's dependents, and invokes the stored cleanup
(`clog = [1]`).  A subsequent write does not re-run the callback (run
count stays 1), the same holds when disposal happens inside a batch
followed by a write in that batch, and in fact after disposal a write of
any object whatsoever to the previously-tracked signal runs no producer
at all (the run log is unchanged). -/
theorem C8_effect_disposal :
    (getN C8st0 0).elems = [1] ∧ countRuns C8st0 1 = 1 ∧
    (getN C8st1 0).elems = [] ∧ (getN C8st1 1).elems = [] ∧ C8st1.clog = [1] ∧
    C8w.1 = .ok none ∧ countRuns C8w.2 1 = 1 ∧
    C8b.1 = .ok none ∧ countRuns C8b.2 1 = 1 ∧
    (∀ w : Obj, (writeSignal 100 0 w C8st1).2.log = C8st1.log) := by
  refine ⟨by decide, by decide, by decide, by decide, by decide, by decide, by decide,
    by decide, by decide, ?_⟩
  intro w
  obtain ⟨st', heq, hlog, _, _, _⟩ := writeSignal_no_deps 100 C8st1 0 w (by decide)
  have e2 : (writeSignal 100 0 w C8st1).2 = st' := by rw [heq]
  rw [e2]
  exact hlog

/-- C9: untracked reads.  Universally, a signal read with tracking
disabled returns the current value and leaves the state (in particular
every dependent and scratch set) completely unchanged.  Concretely: an
effect whose callback reads `s` only inside `untracked` leaves `s`'s
dependent set and its own scratch set empty, a later write to `s` does not
re-run it (indeed a write of any object to `s` runs no producer at all),
and a top-level `untracked` whose callback raises still restores the
tracking flag while the exception propagates. -/
theorem C9_untracked_reads :
    (∀ (f : Nat) (st : St) (i : Nat), st.tracked = false → (getN st i).prog = none →
      valueGet f i st = (.ok (some (getN st i).obj.val), st)) ∧
    (getN C9st0 0).elems = [] ∧ (getN C9st0 1).elems = [] ∧ C9st0.tracked = true ∧
    countRuns C9st0 1 = 1 ∧ countRuns C9w.2 1 = 1 ∧
    (∀ w : Obj, (writeSignal 100 0 w C9st0).2.log = C9st0.log) ∧
    C9u.1 = .exc ∧ C9u.2.tracked = true := by
  refine ⟨?_, by decide, by decide, by decide, by decide, by decide, ?_, by decide, by decide⟩
  · intro f st i ht hp
    simp [valueGet, step, hp, ht]
  · intro w
    obtain ⟨st', heq, hlog, _, _, _⟩ := writeSignal_no_deps 100 C9st0 0 w (by decide)
    have e2 : (writeSignal 100 0 w C9st0).2 = st' := by rw [heq]
    rw [e2]
    exact hlog

/-- C9 witness: reading signal 0 of the concrete scenario state with the
tracking flag cleared returns its value 7 and changes nothing. -/
theorem C9_untracked_reads_witness :
    valueGet 20 0 { C9st0 with tracked := false } =
      (.ok (some 7), { C9st0 with tracked := false }) := by
  have h := C9_untracked_reads.1 20 { C9st0 with tracked := false } 0 rfl (by decide)
  simpa using h

/-- C10: a raising producer.  Reading the computed whose producer reads
`s` and then raises propagates the exception; afterwards the evaluating
pointer is restored to `none`, the node is left clean (`compute = false`)
with cache `None`, and both `peek` and `value` return `None` without
re-invoking the producer (run count stays 1).  A write to `s` (a new
invalidation, possible because the failed run did register the edge)
re-dirties the node and the next read re-invokes the producer (run count
2, raising again).  The same holds for an effect whose callback raises at
construction time. -/
theorem C10_raising_producer_left_clean :
    C10r1.1 = .exc ∧ C10st1.computing = none ∧
    (getN C10st1 1).compute = false ∧ (getN C10st1 1).cache = none ∧
    countRuns C10st1 1 = 1 ∧
    peekGet 100 1 C10st1 = (.ok none, C10st1) ∧
    valueGet 100 1 C10st1 = (.ok none, C10st1) ∧
    (getN C10st2 1).compute = true ∧ C10r2.1 = .exc ∧ countRuns C10r2.2 1 = 2 ∧
    C10e.2.1 = .exc ∧ (getN C10e.2.2 0).compute = false ∧
    C10e.2.2.computing = none ∧ countRuns C10e.2.2 0 = 1 := by
  decide

end DomCue
